import Mathlib

/-!
Verification of the TellorMiner mining-coordination pipeline against its
natural-language specification.

The Go sources are embedded shallowly:
* `SubmitContractTxn` (transaction submitter, appended Go section of
  `src/Makefile`, lines 370-488) becomes a fuel-indexed state machine over an
  abstract per-attempt environment (balance reads, network-id reads, the
  builder callback, context cancellation).
* `SolutionHandler.Submit` (`src/pkg/pow/miningGroup_test.go`, appended
  implementation section) becomes a function over the KV-store contents.
* `CheckValueAtTime` (`src/unnamed/part_000`) is embedded with `ℚ` standing
  for Go `float64` and `Int` (nanosecond/second counts) for `time.Time`.
* `JSONapiVolume.Get` and the volume-symbol dispatch of `createDataSources`
  (`src/pkg/tracker/index/index.go`) become a stateful step function folded
  over a trace of fetch results.
* `GasTracker.Exec` (`src/pkg/tracker/gas.go`) becomes a case analysis over
  the outcomes of its three price sources.
* The PoW hasher loop is not under `src/`; it is modelled from the spec
  (section 4.2 iteration contract), with the hash function abstract, while
  the puzzle-buffer construction is taken from the in-repo test
  `CheckSolution` (`src/pkg/pow/miningGroup_test.go` lines 32-47).
-/

deriving instance DecidableEq for Except

namespace TellorMiner

/-! ## Shared primitives -/

/-- `common.GWEI` from `pkg/common` (10^9 wei). -/
def GWEI : Int := 1000000000

/-- Helper for `containsSubstring`: does `needle` occur in `hay` starting at
some position? -/
def containsFrom (needle : List Char) : List Char → Bool
  | [] => needle.isEmpty
  | c :: rest => needle.isPrefixOf (c :: rest) || containsFrom needle rest

/-- Go `strings.Contains(hay, needle)`. -/
def containsSubstring (hay needle : String) : Bool :=
  containsFrom needle.toList hay.toList

/-! ## TxSubmitter: `SubmitContractTxn` (src/Makefile, Go section lines 370-488)

The pre-loop work (reading the starting nonce via `NonceAt`, reading the gas
price from the DB with a `SuggestGasPrice` fallback, applying
`cfg.GasMultiplier`) is summarised by the `startNonce` and `basePrice`
arguments; the attempt loop itself is embedded step by step.  Times are not
modelled (the 15s retry sleep only matters through the cancellation check
that happens inside it).  `bind.NewKeyedTransactorWithChainID` never fails
for a well-formed key and is not given an error case. -/

/-- The fields of `bind.TransactOpts` that `SubmitContractTxn` sets before
invoking the builder callback. -/
structure TransactOpts where
  nonce : Int
  value : Int
  gasLimit : Nat
  gasPrice : Int
deriving Repr, DecidableEq

/-- Chain-facing results of one loop iteration: the result of
`client.BalanceAt`, of `client.NetworkID`, of the builder callback, and
whether the submit context is cancelled during the retry sleep. -/
structure AttemptEnv where
  balanceAt : Except String Int
  networkID : Except String Int
  callback : TransactOpts → Except String Nat
  ctxCanceled : Bool

/-- The mutable locals of the attempt loop: `IntNonce`, `gasPrice` and
`finalError`. -/
structure SubmitState where
  intNonce : Int
  gasPrice : Int
  finalError : Option String
deriving Repr, DecidableEq

/-- One invocation of the builder callback: which loop iteration made it,
the `TransactOpts` it received, and what it returned. -/
structure Attempt where
  idx : Nat
  opts : TransactOpts
  res : Except String Nat
deriving Repr, DecidableEq

/-- How `SubmitContractTxn` returns: a transaction, an early error
(`getting network id`), cancellation during the retry sleep, or falling off
the loop with the recorded `finalError`. -/
inductive SubmitOutcome where
  | tx (t : Nat)
  | earlyErr (msg : String)
  | canceled
  | exhausted (finalError : Option String)
deriving Repr, DecidableEq

/-- Result of a run: the outcome, the list of callback invocations in
order, and the final loop state. -/
structure SubmitResult where
  outcome : SubmitOutcome
  attempts : List Attempt
  final : SubmitState
deriving Repr, DecidableEq

/-- `errors.Errorf("insufficient funds to send transaction: %v < %v", balance, cost)`. -/
def insufficientFundsMsg (balance cost : Int) : String :=
  "insufficient funds to send transaction: " ++ toString balance ++ " < " ++ toString cost

/-- `maxGasPrice` computed in the loop body: `GWEI * gasMax` when
`cfg.GasMax > 0`, else `GWEI * 100`. -/
def maxGasPrice (gasMax : Int) : Int :=
  GWEI * (if 0 < gasMax then gasMax else 100)

/-- How one loop iteration continues: go to the next iteration without
having called the callback (`continue` before the build), go to the next
iteration after a failed callback invocation, or leave the loop with a
final `SubmitResult`. -/
inductive StepRes where
  | next (st' : SubmitState)
  | nextAfter (a : Attempt) (st' : SubmitState)
  | stop (r : SubmitResult)
deriving Repr

/-- One iteration of the attempt loop of `SubmitContractTxn`, following the
Go body line by line: re-read the balance, check it against
`gasPrice * 200000`, read the network id (error returns immediately),
replace a zero gas price by 100, bump the price for `i > 1` by
`gasPrice * (11*i) / 100` (big.Int `Div`, i.e. Euclidean), clamp to
`maxGasPrice`, call the callback with the sticky nonce, and classify a
callback error by substring match (cancellation is observed during the
retry sleep that follows every callback error). -/
def attemptStep (env : Nat → AttemptEnv) (gasMax : Int) (i : Nat)
    (st : SubmitState) : StepRes :=
  match (env i).balanceAt with
  | .error e => .next { st with finalError := some e }
  | .ok balance =>
    let cost := st.gasPrice * 200000
    if balance < cost then
      .next { st with finalError := some (insufficientFundsMsg balance cost) }
    else
      match (env i).networkID with
      | .error e => .stop ⟨.earlyErr ("getting network id: " ++ e), [], st⟩
      | .ok _ =>
        let gasPrice := if st.gasPrice = 0 then 100 else st.gasPrice
        let bumped :=
          if 1 < i then gasPrice + Int.ediv (gasPrice * (11 * (i : Int))) 100
          else gasPrice
        let cap := maxGasPrice gasMax
        let authGasPrice := if cap < bumped then cap else bumped
        let opts : TransactOpts := ⟨st.intNonce, 0, 3000000, authGasPrice⟩
        match (env i).callback opts with
        | .ok tx => .stop ⟨.tx tx, [⟨i, opts, .ok tx⟩], { st with gasPrice := gasPrice }⟩
        | .error msg =>
          let st' : SubmitState :=
            if containsSubstring msg "nonce too low" then
              { st with gasPrice := gasPrice, intNonce := st.intNonce + 1 }
            else if containsSubstring msg "replacement transaction underpriced" then
              { st with gasPrice := gasPrice, finalError := some msg }
            else
              { st with gasPrice := gasPrice, finalError := some ("callback: " ++ msg) }
          if (env i).ctxCanceled then .stop ⟨.canceled, [⟨i, opts, .error msg⟩], st'⟩
          else .nextAfter ⟨i, opts, .error msg⟩ st'

/-- The attempt loop `for i := 0; i <= 5; i++` of `SubmitContractTxn`, with
`fuel` many iterations left and `i` the current loop counter. -/
def runAttempts (env : Nat → AttemptEnv) (gasMax : Int) :
    Nat → Nat → SubmitState → SubmitResult
  | 0, _, st => ⟨.exhausted st.finalError, [], st⟩
  | fuel + 1, i, st =>
    match attemptStep env gasMax i st with
    | .next st' => runAttempts env gasMax fuel (i + 1) st'
    | .nextAfter a st' =>
      let rest := runAttempts env gasMax fuel (i + 1) st'
      ⟨rest.outcome, a :: rest.attempts, rest.final⟩
    | .stop r => r

/-- `SubmitContractTxn` after its preamble: run the attempt loop for the
six iterations `i = 0..5` from the captured nonce and base gas price. -/
def SubmitContractTxn (env : Nat → AttemptEnv) (gasMax : Int)
    (startNonce basePrice : Int) : SubmitResult :=
  runAttempts env gasMax 6 0 ⟨startNonce, basePrice, none⟩

/-- The final `errors.Wrapf(finalError, "submit txn after 5 attempts ctx:%v", ctxName)`;
`errors.Wrapf` of a `nil` error is `nil`. -/
def wrappedFinalError (ctxName : String) (finalError : Option String) : Option String :=
  finalError.map (fun m => "submit txn after 5 attempts ctx:" ++ ctxName ++ ": " ++ m)

/-- Nonce adjustment an attempt causes: `IntNonce` is incremented exactly
when the callback error message contains `"nonce too low"`. -/
def nonceDelta (a : Attempt) : Int :=
  match a.res with
  | .error msg => if containsSubstring msg "nonce too low" then 1 else 0
  | .ok _ => 0

/-- The trace of callback invocations is chained: each invocation uses the
current sticky nonce, and only a `"nonce too low"` error advances it. -/
def NonceChained : Int → List Attempt → Prop
  | _, [] => True
  | n, a :: rest => a.opts.nonce = n ∧ NonceChained (n + nonceDelta a) rest

/-- Gas price offered at loop iteration `i` before clamping:
base price for `i ≤ 1`, `base + base*(11*i)/100` for `i ≥ 2`. -/
def bumpedPrice (g : Int) (i : Nat) : Int :=
  if 1 < i then g + Int.ediv (g * (11 * (i : Int))) 100 else g

/-! ## SolutionHandler: `Submit` (src/pkg/pow/miningGroup_test.go, appended
implementation section, lines 270-360 of the file)

KV reads are abstracted per key: a stored value is either absent/empty
(`hexutil.DecodeBig` of an empty string fails), present but undecodable,
present and decoding to an integer, or the read itself errors.  Times are
Unix seconds, so the Go check `today.Sub(tm) < 15*time.Minute` becomes
`now - last < 900`.  The `manualData.json` overlay is a total map (a Go map
read of a missing key yields the zero value) plus a flag for whether the
file could be opened and parsed. -/

/-- A KV-store read for one key, as `SolutionHandler.Submit` observes it. -/
inductive KVVal where
  | missing
  | bad
  | val (v : Int)
  | getErr
deriving Repr, DecidableEq

/-- The `{miner}-timeOut` read: the `proxy.Get` may fail, the stored bytes
may fail `hexutil.DecodeBig`, or they decode to a Unix-seconds timestamp. -/
inductive LastSubmit where
  | getErr
  | bad
  | val (l : Int)
deriving Repr, DecidableEq

/-- How `SolutionHandler.Submit` ends.  `submitted values` means
`PrepareTransaction` is invoked with `s.currentValues = values`
(`none` entries stand for a `nil` `*big.Int` left by the undecodable,
id > 53 path); every other constructor is a `return false` before the
submitter is reached. -/
inductive HandlerOut where
  | timeoutGetError
  | timeoutDecodeError
  | tooSoon
  | kvGetError
  | manualReadError
  | noValueManual
  | noValueDecode
  | submitted (values : List (Option Int))
deriving Repr, DecidableEq

/-- The `for i := 0; i < 5; i++` value-gathering loop of `Submit`.
`manualVal` is the Go local of the same name: initialised to 0 before the
loop and persisting across iterations.  Per request id:
* read errors abort;
* an empty value for an id > 53 only logs a warning, then the decode of the
  empty string fails and the id > 53, empty branch substitutes 0;
* an empty value for an id ≤ 53 consults `manualData.json` (file errors
  abort, a zero entry aborts), then the failing decode substitutes the
  manual value when it is positive and aborts otherwise;
* a nonempty undecodable value keeps a `nil` entry for id > 53, reuses a
  positive `manualVal` for id ≤ 53, and aborts otherwise;
* a decodable value is used as is. -/
def valuesLoop (kv : Nat → KVVal) (manualOk : Bool) (manual : Nat → Int) :
    List Nat → Int → List (Option Int) → HandlerOut
  | [], _, acc => .submitted acc
  | id :: rest, manualVal, acc =>
    match kv id with
    | .getErr => .kvGetError
    | .val v => valuesLoop kv manualOk manual rest manualVal (acc ++ [some v])
    | .missing =>
      if 53 < id then
        valuesLoop kv manualOk manual rest manualVal (acc ++ [some 0])
      else if manualOk then
        let mv := manual id
        if mv = 0 then .noValueManual
        else if 0 < mv then valuesLoop kv manualOk manual rest mv (acc ++ [some mv])
        else .noValueDecode
      else .manualReadError
    | .bad =>
      if 53 < id then
        valuesLoop kv manualOk manual rest manualVal (acc ++ [none])
      else if 0 < manualVal then
        valuesLoop kv manualOk manual rest manualVal (acc ++ [some manualVal])
      else .noValueDecode

/-- `SolutionHandler.Submit`: read the miner's last-successful-submit
timestamp, refuse to submit within fifteen minutes of it, then gather the
five values and hand them to the submitter. -/
def solutionSubmit (now : Int) (lastS : LastSubmit) (kv : Nat → KVVal)
    (manualOk : Bool) (manual : Nat → Int) (ids : List Nat) : HandlerOut :=
  match lastS with
  | .getErr => .timeoutGetError
  | .bad => .timeoutDecodeError
  | .val l =>
    if 0 < l ∧ now - l < 900 then .tooSoon
    else valuesLoop kv manualOk manual ids 0 []

/-! ## Dispute checker: `CheckValueAtTime` (src/unnamed/part_000, lines 47-94)

Go `float64` values become `ℚ`; `math.MaxFloat64` is the exact rational
value of the largest finite double.  Times are nanosecond counts (`Int`),
and Go's native integer division truncates toward zero (`Int.div`).
`PSRValueForTime` lives outside the embedded file and is a parameter. -/

/-- Exact value of `math.MaxFloat64`, i.e. `2^1024 - 2^971`, written as a
numeral so that kernel reduction can evaluate comparisons against it. -/
def maxFloat64 : ℚ :=
  179769313486231570814527423731704356798070567525844996598917476803157260780028538760589558632766878171540458953514382464234321326889464182768467546703537516986049910576551282076245490090389328944075868508455133942304583236903222948165808559332123348274797826204144723168738177180919299881250404026184124858368

/-- `ValueCheckResult` from src/unnamed/part_000. -/
structure ValueCheckResult where
  low : ℚ
  high : ℚ
  withinRange : Bool
  datapoints : List ℚ
  times : List Int
deriving Repr, DecidableEq

/-- The five sample times `at.Add((time.Duration(i) - 2) * Δ / 5)` for
`i ∈ 0..4` (multiply first, then truncating division by 5). -/
def disputeSampleTimes (t0 delta : Int) : List Int :=
  (List.range 5).map (fun i => t0 + Int.tdiv (((i : Int) - 2) * delta) 5)

/-- `CheckValueAtTime(reqID, val, at)`: sample the PSR at the five times,
keep the points whose confidence exceeds 0.8, return `nil` when none
qualifies, and otherwise form the band
`[min*(1-threshold), max*(1+threshold)]` with the min/max accumulators
initialised to `math.MaxFloat64` and `0.0` as in the source. -/
def CheckValueAtTime (psr : Int → ℚ × ℚ) (delta : Int) (threshold : ℚ)
    (val : ℚ) (t0 : Int) : Option ValueCheckResult :=
  let pts := (disputeSampleTimes t0 delta).filterMap
    (fun t => if 4 / 5 < (psr t).2 then some ((psr t).1, t) else none)
  match pts with
  | [] => none
  | _ =>
    let mn := pts.foldl (fun m p => if p.1 < m then p.1 else m) maxFloat64
    let mx := pts.foldl (fun m p => if m < p.1 then p.1 else m) 0
    let lo := mn * (1 - threshold)
    let hi := mx * (1 + threshold)
    some ⟨lo, hi, decide (lo < val ∧ val < hi), pts.map Prod.fst, pts.map Prod.snd⟩

/-- The sample times whose confidence exceeds 0.8 - the points
`CheckValueAtTime` keeps. -/
def disputeKeptTimes (psr : Int → ℚ × ℚ) (delta t0 : Int) : List Int :=
  (disputeSampleTimes t0 delta).filter (fun t => decide (4 / 5 < (psr t).2))

/-! ## IndexTracker: volume sources (src/pkg/tracker/index/index.go)

`createDataSources` wraps an http endpoint in `JSONapiVolume` exactly when
the lower-cased symbol contains `"volume"` (lines 134-141); a
`JSONapiVolume.Get` records 0 instead of the fetched value when the source
timestamp equals the one remembered from the previous successful fetch
(lines 391-409).  A fetch-and-parse outcome is one `Except` value; values
are `ℚ`, source timestamps are `Int`. -/

/-- The volume test of `createDataSources`:
`strings.Contains(strings.ToLower(symbol), "volume")`. -/
def isVolumeSymbol (symbol : String) : Bool :=
  containsSubstring (String.mk (symbol.toList.map Char.toLower)) "volume"

/-- One `JSONapiVolume.Get` call: on a successful fetch-and-parse, zero the
value when the timestamp repeats, and remember the new timestamp; a failed
fetch leaves `lastTS` untouched. -/
def jsonApiVolumeGet (lastTS : Int) (fetched : Except String (ℚ × Int)) :
    Except String ℚ × Int :=
  match fetched with
  | .error e => (.error e, lastTS)
  | .ok (v, ts) => (.ok (if lastTS = ts then 0 else v), ts)

/-- One `JSONapi.Get` call (non-volume sources): the fetched value as is. -/
def jsonApiGet (fetched : Except String (ℚ × Int)) : Except String ℚ :=
  match fetched with
  | .error e => .error e
  | .ok (v, _) => .ok v

/-- The values a `JSONapiVolume` records over a trace of successful
fetches, starting from remembered timestamp `lastTS`. -/
def volumeRun (lastTS : Int) : List (ℚ × Int) → List ℚ
  | [] => []
  | (v, ts) :: rest => (if lastTS = ts then 0 else v) :: volumeRun ts rest

/-- The values a data source created by `createDataSources` for `symbol`
records over a trace of successful fetches: the volume behaviour when the
symbol contains "volume" (case-insensitive), the plain behaviour otherwise. -/
def dataSourceRun (symbol : String) (lastTS : Int) (fetches : List (ℚ × Int)) : List ℚ :=
  if isVolumeSymbol symbol then volumeRun lastTS fetches else fetches.map Prod.fst

/-! ## GasTracker: `Exec` (src/pkg/tracker/gas.go, lines 49-91)

The three sources are parameters: the `NetworkID` read, the ETHGasStation
fetch (`.error` - the fetch failed; `.ok none` - the JSON did not
unmarshal; `.ok (some fast)` - the parsed `fast` field), and the client's
`SuggestGasPrice`.  `gasPrice` is `Option Int`: `none` is the Go `nil`
`*big.Int`, and `hexutil.EncodeBig` of `nil` dereferences a nil pointer. -/

/-- Go conversion `int64(q)` for a float: truncation toward zero. -/
def intTrunc (q : ℚ) : Int :=
  if 0 ≤ q then Rat.floor q else Rat.ceil q

/-- How `GasTracker.Exec` ends: return an error, write the encoded gas
price under `db.GasKey`, or panic in `hexutil.EncodeBig(nil)`. -/
inductive GasExecOutcome where
  | err (msg : String)
  | put (gasPrice : Int)
  | nilPanic
deriving Repr, DecidableEq

/-- Whether a `GasTracker.Exec` outcome is a returned error. -/
def gasExecIsError : GasExecOutcome → Bool
  | .err _ => true
  | .put _ => false
  | .nilPanic => false

/-- `GasTracker.Exec`: on mainnet (network id 1) prefer the ETHGasStation
`fast/10` gwei price and fall back to `SuggestGasPrice`; off mainnet use
`SuggestGasPrice` directly.  A failed fallback only logs a warning, leaving
`gasPrice` nil. -/
def GasTrackerExec (netID : Except String Int)
    (ethGasStation : Except String (Option ℚ))
    (suggested : Except String Int) : GasExecOutcome :=
  match netID with
  | .error e => .err e
  | .ok n =>
    let fromSuggested : Option Int :=
      match suggested with
      | .error _ => none
      | .ok g => some g
    let gasPrice : Option Int :=
      if n = 1 then
        match ethGasStation with
        | .error _ => fromSuggested
        | .ok none => fromSuggested
        | .ok (some fast) => some (intTrunc (fast / 10) * GWEI)
      else fromSuggested
    match gasPrice with
    | none => .nilPanic
    | some g => .put g

/-! ## Proof of work (claim C1)

The hasher implementations (`hashFn`, `CheckRange`, the mining-group
dispatcher) are not under src/; only the test `CheckSolution`
(src/pkg/pow/miningGroup_test.go lines 32-47) is.  The hash function is
therefore kept abstract (the spec explicitly does not pin it down), and the
hasher loop is modelled from the spec; the byte buffer that is hashed
follows the in-repo test: `decodeHex(hex(challenge) + publicAddress)` with
the nonce's decimal-ASCII bytes appended raw, after the hex decoding. -/

/-- Value of a hex digit character. -/
def hexDigitVal (c : Char) : Option Nat :=
  if '0' ≤ c ∧ c ≤ '9' then some (c.toNat - 48)
  else if 'a' ≤ c ∧ c ≤ 'f' then some (c.toNat - 87)
  else if 'A' ≤ c ∧ c ≤ 'F' then some (c.toNat - 55)
  else none

/-- `hex.DecodeString`: pairs of hex digits to bytes; odd length or a
non-hex character fails. -/
def hexDecode : List Char → Option (List Nat)
  | [] => some []
  | [_] => none
  | c1 :: c2 :: rest => do
    let h ← hexDigitVal c1
    let l ← hexDigitVal c2
    let r ← hexDecode rest
    pure ((16 * h + l) :: r)

/-- Lowercase hex digit for a value below 16. -/
def hexDigitChar (n : Nat) : Char :=
  if n < 10 then Char.ofNat (48 + n) else Char.ofNat (87 + n)

/-- Go `fmt.Sprintf("%x", bytes)`: two lowercase hex digits per byte. -/
def bytesToHex (bs : List Nat) : List Char :=
  (bs.map (fun b => [hexDigitChar (b / 16), hexDigitChar (b % 16)])).flatten

/-- Decimal-ASCII digits of a nonce counter. -/
def decimalDigits (n : Nat) : List Char :=
  (toString n).toList

/-- The byte buffer the code hashes, following `CheckSolution`:
`hashIn := decodeHex(hex(challenge) + publicAddress)` then
`hashIn = append(hashIn, []byte(nonce)...)`. -/
def codeHashInput (challenge : List Nat) (minerHex nonce : List Char) :
    Option (List Nat) :=
  (hexDecode (bytesToHex challenge ++ minerHex)).map
    (fun bs => bs ++ nonce.map Char.toNat)

/-- Following the spec's words (section 4.2): form the hex string
`toLowerHex(challenge) || miner_address_hex_lowercase || decimal_ascii(nonce)`
and decode the whole string as hex into a byte buffer. -/
def specHashInput (challenge : List Nat) (minerHex nonce : List Char) :
    Option (List Nat) :=
  hexDecode (bytesToHex challenge ++ minerHex ++ nonce)

/-- The puzzle predicate the code checks: the abstract hash of the code's
byte buffer, reduced mod the difficulty, is zero.  An undecodable buffer
never satisfies it. -/
def powSolutionOK (H : List Nat → Nat) (difficulty : Nat)
    (challenge : List Nat) (minerHex nonce : List Char) : Bool :=
  match codeHashInput challenge minerHex nonce with
  | some buf => H buf % difficulty == 0
  | none => false

/-- The puzzle predicate as the spec words it, over `specHashInput`. -/
def specSolutionOK (H : List Nat → Nat) (difficulty : Nat)
    (challenge : List Nat) (minerHex nonce : List Char) : Bool :=
  match specHashInput challenge minerHex nonce with
  | some buf => H buf % difficulty == 0
  | none => false

/-- Modelled from the spec: the hasher loop (`CheckRange`, section 4.2 -
"The call blocks until either a nonce satisfying the puzzle predicate is
found in `[start, start+n)`, the full range is exhausted") and the
mining-group emission rule (section 4.3 - the first hasher returning a
non-empty nonce wins and its nonce becomes the emitted `Result`), which are
not under src/.  The puzzle predicate itself is the in-repo test's
(`powSolutionOK`).  Returns the first satisfying nonce of the range. -/
def checkRange (H : List Nat → Nat) (difficulty : Nat) (challenge : List Nat)
    (minerHex : List Char) (start n : Nat) : Option Nat :=
  ((List.range n).find?
    (fun k => powSolutionOK H difficulty challenge minerHex (decimalDigits (start + k)))).map
    (fun k => start + k)

/-! ## Concrete instances used in witnesses and counterexamples -/

/-- A placeholder `Attempt` used as the `getD` default. -/
def defaultAttempt : Attempt := ⟨0, ⟨0, 0, 0, 0⟩, .ok 0⟩

/-- Environment whose first callback fails with `"nonce too low"` and whose
second succeeds. -/
def envNonceStale : Nat → AttemptEnv := fun i =>
  ⟨.ok 1000000000, .ok 1, fun _ => if i = 0 then .error "nonce too low" else .ok 3, false⟩

/-- Environment whose callback always fails with the underpriced message. -/
def envUnderpriced : Nat → AttemptEnv := fun _ =>
  ⟨.ok 1000000000000, .ok 1, fun _ => .error "replacement transaction underpriced", false⟩

/-- Environment with balance 10^6 wei and a succeeding callback. -/
def envLowBalance : Nat → AttemptEnv := fun _ =>
  ⟨.ok 1000000, .ok 1, fun _ => .ok 7, false⟩

/-- Environment whose balance is 0 on attempt 0 and ample afterwards, with
a succeeding callback. -/
def envRecoveringBalance : Nat → AttemptEnv := fun i =>
  ⟨.ok (if i = 0 then 0 else 1000000000), .ok 1, fun _ => .ok 9, false⟩

/-- Environment whose callback always fails with an unclassified message. -/
def envAlwaysFailing : Nat → AttemptEnv := fun _ =>
  ⟨.ok 1000000000, .ok 1, fun _ => .error "boom", false⟩

/-- Environment whose balance reads always fail. -/
def envBalanceErr : Nat → AttemptEnv := fun _ =>
  ⟨.error "rpc down", .ok 1, fun _ => .ok 1, false⟩

/-- Environment whose balance is always below the checked cost. -/
def envBroke : Nat → AttemptEnv := fun _ =>
  ⟨.ok 0, .ok 1, fun _ => .ok 2, false⟩

/-- KV store with no values at all. -/
def kvEmpty : Nat → KVVal := fun _ => .missing

/-- Manual-data overlay with no entries (a Go map read yields zero). -/
def manualEmpty : Nat → Int := fun _ => 0

/-- A byte-sum stand-in for the abstract PoW hash function. -/
def sumHash : List Nat → Nat := fun l => l.foldl (· + ·) 0

/-- The all-zero 32-byte challenge (as built by `createChallenge 0`). -/
def zeroChallenge : List Nat := List.replicate 32 0

/-- The test configuration's `publicAddress`:
`"0000000000000000000000000000000000000000"`. -/
def zeroMiner : List Char := List.replicate 40 '0'

/-- A PSR sampler for the dispute-checker witness: value `t + 100` at time
`t`, always fully confident. -/
def psrLinear : Int → ℚ × ℚ := fun t => ((t : ℚ) + 100, 1)

/-- The `ValueCheckResult` that `CheckValueAtTime psrLinear 10 (1/20) 105 0`
produces. -/
def vcrLinear : ValueCheckResult :=
  ⟨456 / 5, 546 / 5, true, [96, 98, 100, 102, 104], [-4, -2, 0, 2, 4]⟩

/-! ## Lemmas on the attempt loop -/

/-- The clamp `if cap < b then cap else b` is `min b cap`. -/
theorem ite_clamp_eq_min (b cap : Int) : (if cap < b then cap else b) = min b cap := by
  rw [min_def]
  split <;> split <;> omega

/-- A `.next` continuation leaves the sticky nonce and the gas price
untouched (only `finalError` changes). -/
theorem attemptStep_next {env : Nat → AttemptEnv} {gm : Int} {i : Nat}
    {st st' : SubmitState} (h : attemptStep env gm i st = .next st') :
    st'.intNonce = st.intNonce ∧ st'.gasPrice = st.gasPrice := by
  unfold attemptStep at h
  split at h
  · cases h
    simp
  · dsimp only at h
    split at h
    · cases h
      simp
    · split at h
      · cases h
      · split at h
        · cases h
        · split at h
          · cases h
          · cases h

/-- A `.nextAfter` continuation records an attempt made at iteration `i`
with the sticky nonce and the clamped bumped gas price, and advances the
nonce by `nonceDelta`. -/
theorem attemptStep_nextAfter {env : Nat → AttemptEnv} {gm : Int} {i : Nat}
    {st st' : SubmitState} {a : Attempt}
    (h : attemptStep env gm i st = .nextAfter a st') :
    a.idx = i ∧ a.opts.nonce = st.intNonce ∧
    st'.intNonce = st.intNonce + nonceDelta a ∧
    st'.gasPrice = (if st.gasPrice = 0 then 100 else st.gasPrice) ∧
    a.opts.gasPrice =
      min (bumpedPrice (if st.gasPrice = 0 then 100 else st.gasPrice) i) (maxGasPrice gm) := by
  unfold attemptStep at h
  split at h
  · cases h
  · dsimp only at h
    split at h
    · cases h
    · split at h
      · cases h
      · split at h
        · cases h
        · split at h
          · cases h
          · cases h
            refine ⟨rfl, rfl, ?_, ?_, ?_⟩
            · simp only [nonceDelta]
              split
              · simp
              · split <;> simp
            · split
              · simp
              · split <;> simp
            · exact ite_clamp_eq_min _ _

/-- A `.stop` result carries at most one attempt, and that attempt is made
at iteration `i` with the sticky nonce and the clamped bumped gas price. -/
theorem attemptStep_stop {env : Nat → AttemptEnv} {gm : Int} {i : Nat}
    {st : SubmitState} {r : SubmitResult}
    (h : attemptStep env gm i st = .stop r) :
    r.attempts = [] ∨
    ∃ a, r.attempts = [a] ∧ a.idx = i ∧ a.opts.nonce = st.intNonce ∧
      a.opts.gasPrice =
        min (bumpedPrice (if st.gasPrice = 0 then 100 else st.gasPrice) i) (maxGasPrice gm) := by
  unfold attemptStep at h
  split at h
  · cases h
  · dsimp only at h
    split at h
    · cases h
    · split at h
      · cases h
        exact Or.inl rfl
      · split at h
        · cases h
          exact Or.inr ⟨_, rfl, rfl, rfl, ite_clamp_eq_min _ _⟩
        · split at h
          · cases h
            exact Or.inr ⟨_, rfl, rfl, rfl, ite_clamp_eq_min _ _⟩
          · cases h

/-- The attempt loop makes at most `fuel` callback invocations. -/
theorem runAttempts_length_le (env : Nat → AttemptEnv) (gm : Int) :
    ∀ fuel i st, (runAttempts env gm fuel i st).attempts.length ≤ fuel := by
  intro fuel
  induction fuel with
  | zero =>
    intro i st
    simp [runAttempts]
  | succ f ih =>
    intro i st
    unfold runAttempts
    cases h : attemptStep env gm i st with
    | next st' => exact le_trans (ih (i + 1) st') (Nat.le_succ f)
    | nextAfter a st' => simpa using Nat.succ_le_succ (ih (i + 1) st')
    | stop r =>
      rcases attemptStep_stop h with h0 | ⟨a, ha, _⟩
      · simp [h0]
      · simp [ha]

/-- The callback trace of the attempt loop is nonce-chained from the
initial sticky nonce. -/
theorem nonceChained_run (env : Nat → AttemptEnv) (gm : Int) :
    ∀ fuel i st, NonceChained st.intNonce (runAttempts env gm fuel i st).attempts := by
  intro fuel
  induction fuel with
  | zero =>
    intro i st
    simp [runAttempts, NonceChained]
  | succ f ih =>
    intro i st
    unfold runAttempts
    cases h : attemptStep env gm i st with
    | next st' =>
      have hn := (attemptStep_next h).1
      have := ih (i + 1) st'
      rwa [hn] at this
    | nextAfter a st' =>
      obtain ⟨_, hn, hst, _, _⟩ := attemptStep_nextAfter h
      have := ih (i + 1) st'
      rw [hst] at this
      exact ⟨hn, this⟩
    | stop r =>
      rcases attemptStep_stop h with h0 | ⟨a, ha, _, hn, _⟩
      · simp [h0, NonceChained]
      · simp only [ha, NonceChained]
        exact ⟨hn, trivial⟩

/-- Consecutive entries of a nonce-chained trace differ exactly by
`nonceDelta` of the earlier entry. -/
theorem nonceChained_getD {l : List Attempt} :
    ∀ {n : Int}, NonceChained n l → ∀ (j : Nat) (d : Attempt), j + 1 < l.length →
      (l.getD (j + 1) d).opts.nonce
        = (l.getD j d).opts.nonce + nonceDelta (l.getD j d) := by
  induction l with
  | nil =>
    intro n _ j d hj
    simp at hj
  | cons a rest ih =>
    intro n h j d hj
    obtain ⟨ha, hrest⟩ := h
    cases j with
    | zero =>
      cases rest with
      | nil => simp at hj
      | cons b r2 =>
        obtain ⟨hb, _⟩ := hrest
        simp only [List.getD_cons_succ, List.getD_cons_zero]
        rw [hb, ha]
    | succ j' =>
      have := ih hrest j' d (by simpa using hj)
      simpa using this

/-- When the base gas price is nonzero it is never rewritten, and every
callback invocation offers the clamped bump formula at its iteration. -/
theorem gasPrice_run (env : Nat → AttemptEnv) (gm g : Int) (hg : g ≠ 0) :
    ∀ fuel i st, st.gasPrice = g →
      ∀ a ∈ (runAttempts env gm fuel i st).attempts,
        a.opts.gasPrice = min (bumpedPrice g a.idx) (maxGasPrice gm) := by
  intro fuel
  induction fuel with
  | zero =>
    intro i st _ a hmem
    simp [runAttempts] at hmem
  | succ f ih =>
    intro i st hst a hmem
    rw [runAttempts] at hmem
    revert hmem
    cases h : attemptStep env gm i st with
    | next st' =>
      intro hmem
      have hn := (attemptStep_next h).2
      exact ih (i + 1) st' (by rw [hn, hst]) a hmem
    | nextAfter a' st' =>
      intro hmem
      obtain ⟨hidx, _, _, hstg, hprice⟩ := attemptStep_nextAfter h
      simp only [List.mem_cons] at hmem
      rcases hmem with rfl | hmem
      · rw [hprice, hst, if_neg hg, hidx]
      · exact ih (i + 1) st' (by rw [hstg, hst, if_neg hg]) a hmem
    | stop r =>
      intro hmem
      rcases attemptStep_stop h with h0 | ⟨a', ha', hidx, _, hprice⟩
      · simp [h0] at hmem
      · rw [ha'] at hmem
        simp only [List.mem_singleton] at hmem
        subst hmem
        rw [hprice, hst, if_neg hg, hidx]

/-! ## Claims C2 and C3 -/

/-- C2: in the transaction submitter's attempt loop, whenever the builder
callback returns an error whose message contains `"nonce too low"`, the
sticky nonce is incremented by one and the next attempt uses that
incremented nonce; no other error kind changes the nonce.  (`nonceDelta`
is 1 exactly on a `"nonce too low"` error and 0 on every other callback
result.) -/
theorem nonce_bump_on_stale (env : Nat → AttemptEnv)
    (gasMax startNonce basePrice : Int) (j : Nat) (d : Attempt)
    (hj : j + 1 < (SubmitContractTxn env gasMax startNonce basePrice).attempts.length) :
    ((SubmitContractTxn env gasMax startNonce basePrice).attempts.getD (j + 1) d).opts.nonce
      = ((SubmitContractTxn env gasMax startNonce basePrice).attempts.getD j d).opts.nonce
        + nonceDelta ((SubmitContractTxn env gasMax startNonce basePrice).attempts.getD j d) :=
  nonceChained_getD (nonceChained_run env gasMax 6 0 ⟨startNonce, basePrice, none⟩) j d hj

/-- Witness for C2: with a `"nonce too low"` failure on attempt 0 and
success on attempt 1, the second invocation uses nonce 7 + 1 = 8. -/
theorem nonce_bump_on_stale_witness :
    ((SubmitContractTxn envNonceStale 0 7 1).attempts.getD 1 defaultAttempt).opts.nonce
        = ((SubmitContractTxn envNonceStale 0 7 1).attempts.getD 0 defaultAttempt).opts.nonce
          + nonceDelta ((SubmitContractTxn envNonceStale 0 7 1).attempts.getD 0 defaultAttempt)
      ∧ ((SubmitContractTxn envNonceStale 0 7 1).attempts.getD 1 defaultAttempt).opts.nonce = 8 :=
  ⟨nonce_bump_on_stale envNonceStale 0 7 1 0 defaultAttempt (by decide), by decide⟩

/-- C3: for every attempt `i ≥ 2` the gas price offered equals the base
gas price plus `base * (11*i) / 100` in exact integer arithmetic, clamped
so it never exceeds `gasMax` gwei (or 100 gwei when `gasMax` is not set);
attempts 0 and 1 offer the base gas price (clamped the same way, hence
exactly the base price whenever it does not exceed the cap).  The base
price must be nonzero (a zero price is replaced by 100 inside the loop). -/
theorem gas_bump_schedule (env : Nat → AttemptEnv)
    (gasMax startNonce basePrice : Int) (hg : basePrice ≠ 0) :
    ∀ a ∈ (SubmitContractTxn env gasMax startNonce basePrice).attempts,
      a.opts.gasPrice ≤ maxGasPrice gasMax ∧
      (2 ≤ a.idx → a.opts.gasPrice
          = min (basePrice + Int.ediv (basePrice * (11 * (a.idx : Int))) 100)
              (maxGasPrice gasMax)) ∧
      (a.idx < 2 → a.opts.gasPrice = min basePrice (maxGasPrice gasMax)) ∧
      (a.idx < 2 → basePrice ≤ maxGasPrice gasMax → a.opts.gasPrice = basePrice) := by
  intro a hmem
  have hp := gasPrice_run env gasMax basePrice hg 6 0 ⟨startNonce, basePrice, none⟩ rfl a hmem
  refine ⟨?_, ?_, ?_, ?_⟩
  · rw [hp]
    exact min_le_right _ _
  · intro h2
    rw [hp]
    unfold bumpedPrice
    rw [if_pos (by omega)]
  · intro h2
    rw [hp]
    unfold bumpedPrice
    rw [if_neg (by omega)]
  · intro h2 hle
    rw [hp]
    unfold bumpedPrice
    rw [if_neg (by omega)]
    exact min_eq_left hle

/-- Witness for C3: with base price 100 wei and `gasMax = 1` gwei, the
third attempt (`i = 2`) offers `100 + 100*22/100 = 122` wei. -/
theorem gas_bump_schedule_witness :
    ((SubmitContractTxn envUnderpriced 1 0 100).attempts.getD 2 defaultAttempt).opts.gasPrice
      = 122 := by
  have hmem : (SubmitContractTxn envUnderpriced 1 0 100).attempts.getD 2 defaultAttempt
      ∈ (SubmitContractTxn envUnderpriced 1 0 100).attempts := by decide
  have h := (gas_bump_schedule envUnderpriced 1 0 100 (by decide) _ hmem).2.1 (by decide)
  rw [h]
  decide

/-! ## Claim C4 -/

/-- When every balance read succeeds but is below `gasPrice * 200000`, the
loop never reaches the callback: it records the insufficient-funds message
as `finalError` each iteration and leaves the nonce untouched. -/
theorem runAttempts_all_insufficient (env : Nat → AttemptEnv) (gm g : Int)
    (b : Nat → Int) (hb : ∀ k, (env k).balanceAt = .ok (b k))
    (hlt : ∀ k, b k < g * 200000) :
    ∀ fuel i st, st.gasPrice = g →
      (runAttempts env gm fuel i st).attempts = [] ∧
      (runAttempts env gm fuel i st).final.intNonce = st.intNonce ∧
      (runAttempts env gm fuel i st).outcome =
        .exhausted (if fuel = 0 then st.finalError
          else some (insufficientFundsMsg (b (i + fuel - 1)) (g * 200000))) := by
  intro fuel
  induction fuel with
  | zero =>
    intro i st hst
    simp [runAttempts]
  | succ f ih =>
    intro i st hst
    have hstep : attemptStep env gm i st =
        .next { st with finalError := some (insufficientFundsMsg (b i) (g * 200000)) } := by
      unfold attemptStep
      rw [hb i]
      dsimp only
      rw [hst, if_pos (hlt i)]
    rw [runAttempts, hstep]
    obtain ⟨h1, h2, h3⟩ := ih (i + 1)
      { st with finalError := some (insufficientFundsMsg (b i) (g * 200000)) } hst
    refine ⟨h1, by simpa using h2, ?_⟩
    rw [h3]
    rcases Nat.eq_zero_or_pos f with rfl | hf
    · simp
    · have hf0 : f ≠ 0 := by omega
      simp only [hf0, if_neg, Nat.succ_ne_zero, if_false]
      have harith : i + 1 + f - 1 = i + (f + 1) - 1 := by omega
      rw [harith]

/-- C4 counterexample: with balance 10^6 wei and gas price 1 wei the
balance is below `gasPrice * 3000000`, yet the submitter calls the builder
callback and returns its transaction instead of aborting; and a shortfall
on attempt 0 alone does not abort the submission either - attempt 1 calls
the callback. -/
theorem insufficient_funds_counterexample :
    (SubmitContractTxn envLowBalance 0 0 1).outcome = .tx 7 ∧
    (SubmitContractTxn envLowBalance 0 0 1).attempts.length = 1 ∧
    ((1000000 : Int) < 1 * 3000000) ∧
    (SubmitContractTxn envRecoveringBalance 0 0 1).outcome = .tx 9 ∧
    (SubmitContractTxn envRecoveringBalance 0 0 1).attempts.map (fun a => a.idx) = [1] := by
  decide

/-- C4 (amended): on every attempt the submitter re-reads the balance and,
when it is below `gasPrice * 200000` (the loop's cost estimate, not the
3,000,000 gas limit it sets on the transaction), skips the attempt without
calling the builder callback and without changing the nonce, recording an
insufficient-funds error; when every attempt is short the run ends with
that error as the wrapped `finalError`. -/
theorem insufficient_funds_skips_callback (env : Nat → AttemptEnv)
    (gasMax startNonce basePrice : Int) (b : Nat → Int)
    (hb : ∀ k, (env k).balanceAt = .ok (b k))
    (hlt : ∀ k, b k < basePrice * 200000) :
    (SubmitContractTxn env gasMax startNonce basePrice).attempts = [] ∧
    (SubmitContractTxn env gasMax startNonce basePrice).final.intNonce = startNonce ∧
    (SubmitContractTxn env gasMax startNonce basePrice).outcome =
      .exhausted (some (insufficientFundsMsg (b 5) (basePrice * 200000))) := by
  have h := runAttempts_all_insufficient env gasMax basePrice b hb hlt 6 0
    ⟨startNonce, basePrice, none⟩ rfl
  simpa using h

/-- Witness for C4 (amended): zero balance on every attempt - no callback
invocation, nonce kept at 3, insufficient-funds outcome. -/
theorem insufficient_funds_skips_callback_witness :
    (SubmitContractTxn envBroke 0 3 1).attempts = [] ∧
    (SubmitContractTxn envBroke 0 3 1).final.intNonce = 3 ∧
    (SubmitContractTxn envBroke 0 3 1).outcome =
      .exhausted (some (insufficientFundsMsg 0 200000)) :=
  insufficient_funds_skips_callback envBroke 0 3 1 (fun _ => 0)
    (fun _ => rfl) (fun k => show (0 : Int) < 1 * 200000 by decide)

/-! ## Claim C5 -/

/-- One iteration when funds suffice, the network id reads fine, the
callback fails with a message that matches neither classification
substring, and the context is live: the loop records the attempt and the
wrapped `"callback: "` error and moves on. -/
theorem attemptStep_otherfail {env : Nat → AttemptEnv} {gm : Int} {i : Nat}
    {st : SubmitState} {g bi nidi : Int} {msg : String}
    (hbi : (env i).balanceAt = .ok bi)
    (hge : g * 200000 ≤ bi)
    (hst : st.gasPrice = g)
    (hg : g ≠ 0)
    (hnet : (env i).networkID = .ok nidi)
    (hcb : ∀ opts, (env i).callback opts = .error msg)
    (hm1 : containsSubstring msg "nonce too low" = false)
    (hm2 : containsSubstring msg "replacement transaction underpriced" = false)
    (hcanc : (env i).ctxCanceled = false) :
    attemptStep env gm i st =
      .nextAfter
        ⟨i, ⟨st.intNonce, 0, 3000000, min (bumpedPrice g i) (maxGasPrice gm)⟩, .error msg⟩
        ⟨st.intNonce, g, some ("callback: " ++ msg)⟩ := by
  unfold attemptStep
  rw [hbi]
  dsimp only
  rw [if_neg (not_lt.mpr (by rw [hst]; exact hge))]
  rw [hnet]
  dsimp only
  simp only [hst, if_neg hg, hcb]
  simp only [hm1, hm2, hcanc, Bool.false_eq_true, if_false]
  rw [ite_clamp_eq_min]
  rfl

/-- When every iteration fails the callback with an unclassified message,
the loop performs exactly `fuel` invocations and ends with the last
message wrapped as `finalError`. -/
theorem runAttempts_all_otherfail (env : Nat → AttemptEnv) (gm g : Int)
    (b nid : Nat → Int) (m : Nat → String)
    (hb : ∀ k, (env k).balanceAt = .ok (b k))
    (hge : ∀ k, g * 200000 ≤ b k)
    (hg : g ≠ 0)
    (hnet : ∀ k, (env k).networkID = .ok (nid k))
    (hcb : ∀ k opts, (env k).callback opts = .error (m k))
    (hm1 : ∀ k, containsSubstring (m k) "nonce too low" = false)
    (hm2 : ∀ k, containsSubstring (m k) "replacement transaction underpriced" = false)
    (hcanc : ∀ k, (env k).ctxCanceled = false) :
    ∀ fuel i st, st.gasPrice = g →
      (runAttempts env gm fuel i st).attempts.length = fuel ∧
      (runAttempts env gm fuel i st).outcome =
        .exhausted (if fuel = 0 then st.finalError
          else some ("callback: " ++ m (i + fuel - 1))) := by
  intro fuel
  induction fuel with
  | zero =>
    intro i st hst
    simp [runAttempts]
  | succ f ih =>
    intro i st hst
    have hstep := @attemptStep_otherfail env gm i st g (b i) (nid i) (m i)
      (hb i) (hge i) hst hg (hnet i) (hcb i) (hm1 i) (hm2 i) (hcanc i)
    rw [runAttempts, hstep]
    obtain ⟨h1, h2⟩ := ih (i + 1) ⟨st.intNonce, g, some ("callback: " ++ m i)⟩ rfl
    refine ⟨by simpa using h1, ?_⟩
    dsimp only
    rw [h2]
    rcases Nat.eq_zero_or_pos f with rfl | hf
    · simp
    · have hf0 : f ≠ 0 := by omega
      simp only [hf0, if_neg, Nat.succ_ne_zero, if_false]
      have harith : i + 1 + f - 1 = i + (f + 1) - 1 := by omega
      rw [harith]

/-- C5 counterexample: a run whose callback always fails invokes the
builder callback six times (the loop is `i = 0..5`), exceeding the claimed
maximum of five; and a run whose balance reads always fail invokes it zero
times, below the claimed minimum of one. -/
theorem attempt_count_counterexample :
    (SubmitContractTxn envAlwaysFailing 0 0 1).attempts.length = 6 ∧
    5 < (SubmitContractTxn envAlwaysFailing 0 0 1).attempts.length ∧
    (SubmitContractTxn envBalanceErr 0 0 1).attempts.length = 0 ∧
    (SubmitContractTxn envBalanceErr 0 0 1).attempts.length < 1 := by
  decide

/-- C5 (amended): the builder callback is called at most 6 times (the loop
runs `i = 0..5`) and possibly 0 times; when every attempt fails its
callback with an unclassified error, all 6 attempts run and the submitter
returns the last error recorded as `finalError`, wrapped with the
attempt-count message (whose text hard-codes "5 attempts"). -/
theorem callback_attempt_bounds (env : Nat → AttemptEnv)
    (gasMax startNonce basePrice : Int) :
    (SubmitContractTxn env gasMax startNonce basePrice).attempts.length ≤ 6 ∧
    (∀ (b nid : Nat → Int) (m : Nat → String),
      (∀ k, (env k).balanceAt = .ok (b k)) →
      (∀ k, basePrice * 200000 ≤ b k) →
      basePrice ≠ 0 →
      (∀ k, (env k).networkID = .ok (nid k)) →
      (∀ k opts, (env k).callback opts = .error (m k)) →
      (∀ k, containsSubstring (m k) "nonce too low" = false) →
      (∀ k, containsSubstring (m k) "replacement transaction underpriced" = false) →
      (∀ k, (env k).ctxCanceled = false) →
      (SubmitContractTxn env gasMax startNonce basePrice).attempts.length = 6 ∧
      (SubmitContractTxn env gasMax startNonce basePrice).outcome =
        .exhausted (some ("callback: " ++ m 5))) := by
  constructor
  · exact runAttempts_length_le env gasMax 6 0 ⟨startNonce, basePrice, none⟩
  · intro b nid m hb hge hg hnet hcb hm1 hm2 hcanc
    have h := runAttempts_all_otherfail env gasMax basePrice b nid m hb hge hg hnet hcb
      hm1 hm2 hcanc 6 0 ⟨startNonce, basePrice, none⟩ rfl
    simpa using h

/-- Witness for C5 (amended): the always-failing environment makes all six
invocations and ends with the wrapped `"boom"` error. -/
theorem callback_attempt_bounds_witness :
    (SubmitContractTxn envAlwaysFailing 0 2 1).attempts.length = 6 ∧
    (SubmitContractTxn envAlwaysFailing 0 2 1).outcome =
      .exhausted (some ("callback: " ++ "boom")) :=
  (callback_attempt_bounds envAlwaysFailing 0 2 1).2
    (fun _ => 1000000000) (fun _ => 1) (fun _ => "boom")
    (fun _ => rfl)
    (fun k => by show (1 : Int) * 200000 ≤ 1000000000; decide)
    (by decide)
    (fun _ => rfl) (fun _ _ => rfl)
    (fun k => by show containsSubstring "boom" "nonce too low" = false; decide)
    (fun k => by
      show containsSubstring "boom" "replacement transaction underpriced" = false
      decide)
    (fun _ => rfl)

/-! ## Claims C6 and C7 -/

/-- The value-gathering loop never produces the `tooSoon` outcome (that
outcome arises only from the timestamp gate before it). -/
theorem valuesLoop_ne_tooSoon (kv : Nat → KVVal) (manualOk : Bool)
    (manual : Nat → Int) :
    ∀ (ids : List Nat) (mv : Int) (acc : List (Option Int)),
      valuesLoop kv manualOk manual ids mv acc ≠ .tooSoon := by
  intro ids
  induction ids with
  | nil =>
    intro mv acc
    simp [valuesLoop]
  | cons id rest ih =>
    intro mv acc
    unfold valuesLoop
    cases h : kv id with
    | getErr => simp
    | val v => exact ih mv (acc ++ [some v])
    | missing =>
      dsimp only
      split
      · exact ih mv (acc ++ [some 0])
      · split
        · split
          · simp
          · split
            · exact ih _ (acc ++ [some (manual id)])
            · simp
        · simp
    | bad =>
      dsimp only
      split
      · exact ih mv (acc ++ [none])
      · split
        · exact ih mv (acc ++ [some mv])
        · simp

/-- C6: for every `Result` handed to the solution handler, when the
last-successful-submit timestamp read from the KV store is positive and
less than 15 minutes (900 s) old, the handler aborts with `tooSoon` before
reaching the submitter; when 15 minutes or more have passed, the gate lets
the submission proceed (the outcome is never `tooSoon`); and a `tooSoon`
outcome is never a submission. -/
theorem submit_too_soon_gate (now l : Int) (kv : Nat → KVVal)
    (manualOk : Bool) (manual : Nat → Int) (ids : List Nat) :
    (0 < l → now - l < 900 →
      solutionSubmit now (.val l) kv manualOk manual ids = .tooSoon) ∧
    (900 ≤ now - l →
      solutionSubmit now (.val l) kv manualOk manual ids ≠ .tooSoon) ∧
    (∀ vs, solutionSubmit now (.val l) kv manualOk manual ids = .tooSoon →
      solutionSubmit now (.val l) kv manualOk manual ids ≠ .submitted vs) := by
  refine ⟨?_, ?_, ?_⟩
  · intro h1 h2
    unfold solutionSubmit
    dsimp only
    rw [if_pos ⟨h1, h2⟩]
  · intro h900
    unfold solutionSubmit
    dsimp only
    rw [if_neg (by omega)]
    exact valuesLoop_ne_tooSoon kv manualOk manual ids 0 []
  · intro vs h
    rw [h]
    simp

/-- Witness for C6: last submit 500 s before `now` - the handler aborts
with `tooSoon`. -/
theorem submit_too_soon_gate_witness :
    solutionSubmit 1000 (.val 500) kvEmpty true manualEmpty [1, 2, 3, 4, 5] = .tooSoon :=
  (submit_too_soon_gate 1000 500 kvEmpty true manualEmpty [1, 2, 3, 4, 5]).1
    (by decide) (by decide)

/-- When the timestamp gate passes and every request id is a legacy-free
id (> 53) with no KV value, the loop substitutes 0 for each id and
submits. -/
theorem valuesLoop_over53_missing (kv : Nat → KVVal) (manualOk : Bool)
    (manual : Nat → Int) :
    ∀ (ids : List Nat), (∀ id ∈ ids, 53 < id) → (∀ id ∈ ids, kv id = .missing) →
      ∀ (mv : Int) (acc : List (Option Int)),
        valuesLoop kv manualOk manual ids mv acc =
          .submitted (acc ++ ids.map (fun _ => some 0)) := by
  intro ids
  induction ids with
  | nil =>
    intro _ _ mv acc
    simp [valuesLoop]
  | cons id rest ih =>
    intro hids hkv mv acc
    unfold valuesLoop
    rw [hkv id (by simp)]
    dsimp only
    rw [if_pos (hids id (by simp))]
    rw [ih (fun x hx => hids x (by simp [hx])) (fun x hx => hkv x (by simp [hx])) mv
      (acc ++ [some 0])]
    simp

/-- C7 counterexample: a challenge whose five request ids are all 54 with
no KV values is not aborted - the handler submits the value 0 for every
id. -/
theorem over53_missing_counterexample :
    solutionSubmit 1000 (.val 0) kvEmpty true manualEmpty [54, 54, 54, 54, 54] =
      .submitted [some 0, some 0, some 0, some 0, some 0] ∧
    53 < 54 := by
  constructor
  · rfl
  · decide

/-- C7 (amended): for every request id in the challenge greater than 53
with no value in the KV store, the handler does not abort: it logs a
warning and substitutes value 0 for that id, and when the timestamp gate
passes it submits. -/
theorem over53_missing_submits_zero (now l : Int) (kv : Nat → KVVal)
    (manualOk : Bool) (manual : Nat → Int) (ids : List Nat)
    (hids : ∀ id ∈ ids, 53 < id) (hkv : ∀ id ∈ ids, kv id = .missing)
    (hgate : l ≤ 0 ∨ 900 ≤ now - l) :
    solutionSubmit now (.val l) kv manualOk manual ids =
      .submitted (ids.map (fun _ => some 0)) := by
  unfold solutionSubmit
  dsimp only
  rw [if_neg (by omega)]
  rw [valuesLoop_over53_missing kv manualOk manual ids hids hkv 0 []]
  simp

/-- Witness for C7 (amended): ids 60..64 with an empty store, last submit
long past - five zeros are submitted. -/
theorem over53_missing_submits_zero_witness :
    solutionSubmit 2000 (.val 100) kvEmpty false manualEmpty [60, 61, 62, 63, 64] =
      .submitted [some 0, some 0, some 0, some 0, some 0] := by
  have h := over53_missing_submits_zero 2000 100 kvEmpty false manualEmpty
    [60, 61, 62, 63, 64] (by decide) (fun _ _ => rfl) (Or.inr (by decide))
  simpa using h

/-! ## Claim C8 -/

/-- A `filterMap` whose function is an if-some-else-none is the `map` of
the corresponding `filter`. -/
theorem filterMap_ite_eq_filter_map {α β : Type} (p : α → Prop) [DecidablePred p]
    (f : α → β) :
    ∀ l : List α, (l.filterMap (fun a => if p a then some (f a) else none))
      = (l.filter (fun a => decide (p a))).map f := by
  intro l
  induction l with
  | nil => rfl
  | cons a t ih =>
    by_cases h : p a
    · simp [h, ih]
    · simp [h, ih]

/-- The Go one-pass minimum accumulator (strict compare, seeded with
`init`) is at most the seed and at most every element, and is the seed or
an element. -/
theorem foldlMin_spec :
    ∀ (l : List ℚ) (init : ℚ),
      (l.foldl (fun m x => if x < m then x else m) init) ≤ init ∧
      (∀ x ∈ l, (l.foldl (fun m x => if x < m then x else m) init) ≤ x) ∧
      ((l.foldl (fun m x => if x < m then x else m) init) = init ∨
        (l.foldl (fun m x => if x < m then x else m) init) ∈ l) := by
  intro l
  induction l with
  | nil =>
    intro init
    simp
  | cons a t ih =>
    intro init
    obtain ⟨h1, h2, h3⟩ := ih (if a < init then a else init)
    simp only [List.foldl_cons]
    have hseed : (if a < init then a else init) ≤ init := by
      split
      · exact le_of_lt (by assumption)
      · exact le_refl _
    have hseeda : (if a < init then a else init) ≤ a := by
      split
      · exact le_refl _
      · exact not_lt.mp (by assumption)
    refine ⟨h1.trans hseed, ?_, ?_⟩
    · intro x hx
      rcases List.mem_cons.mp hx with rfl | hx
      · exact h1.trans hseeda
      · exact h2 x hx
    · rcases h3 with h | h
      · by_cases hai : a < init
        · right
          rw [h, if_pos hai]
          exact List.mem_cons_self a t
        · left
          rw [h, if_neg hai]
      · right
        exact List.mem_cons_of_mem a h

/-- The Go one-pass maximum accumulator, symmetrically. -/
theorem foldlMax_spec :
    ∀ (l : List ℚ) (init : ℚ),
      init ≤ (l.foldl (fun m x => if m < x then x else m) init) ∧
      (∀ x ∈ l, x ≤ (l.foldl (fun m x => if m < x then x else m) init)) ∧
      ((l.foldl (fun m x => if m < x then x else m) init) = init ∨
        (l.foldl (fun m x => if m < x then x else m) init) ∈ l) := by
  intro l
  induction l with
  | nil =>
    intro init
    simp
  | cons a t ih =>
    intro init
    obtain ⟨h1, h2, h3⟩ := ih (if init < a then a else init)
    simp only [List.foldl_cons]
    have hseed : init ≤ (if init < a then a else init) := by
      split
      · exact le_of_lt (by assumption)
      · exact le_refl _
    have hseeda : a ≤ (if init < a then a else init) := by
      split
      · exact le_refl _
      · exact not_lt.mp (by assumption)
    refine ⟨hseed.trans h1, ?_, ?_⟩
    · intro x hx
      rcases List.mem_cons.mp hx with rfl | hx
      · exact hseeda.trans h1
      · exact h2 x hx
    · rcases h3 with h | h
      · by_cases hai : init < a
        · right
          rw [h, if_pos hai]
          exact List.mem_cons_self a t
        · left
          rw [h, if_neg hai]
      · right
        exact List.mem_cons_of_mem a h

/-- On a nonempty list bounded above by the seed, the one-pass minimum
accumulator computes a genuine minimum. -/
theorem foldlMin_is_min (l : List ℚ) (init : ℚ) (hne : l ≠ [])
    (hub : ∀ x ∈ l, x ≤ init) :
    (l.foldl (fun m x => if x < m then x else m) init) ∈ l ∧
    ∀ x ∈ l, (l.foldl (fun m x => if x < m then x else m) init) ≤ x := by
  obtain ⟨h1, h2, h3⟩ := foldlMin_spec l init
  rcases h3 with h | h
  · obtain ⟨x0, hx0⟩ := List.exists_mem_of_ne_nil l hne
    have hx0e : l.foldl (fun m x => if x < m then x else m) init = x0 :=
      le_antisymm (h2 x0 hx0) (by rw [h]; exact hub x0 hx0)
    exact ⟨hx0e ▸ hx0, h2⟩
  · exact ⟨h, h2⟩

/-- On a nonempty list bounded below by the seed, the one-pass maximum
accumulator computes a genuine maximum. -/
theorem foldlMax_is_max (l : List ℚ) (init : ℚ) (hne : l ≠ [])
    (hlb : ∀ x ∈ l, init ≤ x) :
    (l.foldl (fun m x => if m < x then x else m) init) ∈ l ∧
    ∀ x ∈ l, x ≤ (l.foldl (fun m x => if m < x then x else m) init) := by
  obtain ⟨h1, h2, h3⟩ := foldlMax_spec l init
  rcases h3 with h | h
  · obtain ⟨x0, hx0⟩ := List.exists_mem_of_ne_nil l hne
    have hx0e : l.foldl (fun m x => if m < x then x else m) init = x0 :=
      le_antisymm (by rw [h]; exact hlb x0 hx0) (h2 x0 hx0)
    exact ⟨hx0e ▸ hx0, h2⟩
  · exact ⟨h, h2⟩

/-- C8: `CheckValueAtTime(reqID, val, t)` samples the PSR at exactly the
five times `t + (i-2)*Δ/5` for `i ∈ 0..4`, keeps only the sample points
whose confidence exceeds 0.8, returns `nil` when no point qualifies, and
otherwise reports the value as within range iff it lies strictly inside
the band `(min*(1-T), max*(1+T))` computed from the kept points (genuine
minimum and maximum of the kept data points, provided they lie in the
float range `[0, maxFloat64]` of the accumulator seeds). -/
theorem check_value_at_time_spec (psr : Int → ℚ × ℚ) (delta : Int)
    (threshold : ℚ) (val : ℚ) (t0 : Int) :
    disputeSampleTimes t0 delta =
      [t0 + Int.tdiv (-2 * delta) 5, t0 + Int.tdiv (-1 * delta) 5,
       t0 + Int.tdiv (0 * delta) 5, t0 + Int.tdiv (1 * delta) 5,
       t0 + Int.tdiv (2 * delta) 5] ∧
    (CheckValueAtTime psr delta threshold val t0 = none ↔
      disputeKeptTimes psr delta t0 = []) ∧
    (∀ r, CheckValueAtTime psr delta threshold val t0 = some r →
      r.datapoints = (disputeKeptTimes psr delta t0).map (fun t => (psr t).1)) ∧
    (∀ r, CheckValueAtTime psr delta threshold val t0 = some r →
      (∀ x ∈ r.datapoints, 0 ≤ x ∧ x ≤ maxFloat64) →
      ∃ m M, m ∈ r.datapoints ∧ M ∈ r.datapoints ∧
        (∀ x ∈ r.datapoints, m ≤ x ∧ x ≤ M) ∧
        r.low = m * (1 - threshold) ∧ r.high = M * (1 + threshold) ∧
        (r.withinRange = true ↔
          (m * (1 - threshold) < val ∧ val < M * (1 + threshold)))) := by
  have hpts : (disputeSampleTimes t0 delta).filterMap
      (fun t => if 4 / 5 < (psr t).2 then some ((psr t).1, t) else none)
      = (disputeKeptTimes psr delta t0).map (fun t => ((psr t).1, t)) := by
    have h := filterMap_ite_eq_filter_map (fun t => 4 / 5 < (psr t).2)
      (fun t => ((psr t).1, t)) (disputeSampleTimes t0 delta)
    simpa [disputeKeptTimes] using h
  refine ⟨?_, ?_, ?_, ?_⟩
  · unfold disputeSampleTimes
    rw [show List.range 5 = [0, 1, 2, 3, 4] from rfl]
    norm_num
  · unfold CheckValueAtTime
    dsimp only
    rw [hpts]
    rcases hk : disputeKeptTimes psr delta t0 with _ | ⟨c, cs⟩
    · simp
    · simp
  · intro r hr
    unfold CheckValueAtTime at hr
    dsimp only at hr
    rw [hpts] at hr
    rcases hk : disputeKeptTimes psr delta t0 with _ | ⟨c, cs⟩
    · rw [hk] at hr
      cases hr
    · rw [hk] at hr
      simp only [List.map_cons] at hr
      injection hr with hr
      subst hr
      simp [List.map_map, Function.comp]
  · intro r hr hbound
    unfold CheckValueAtTime at hr
    dsimp only at hr
    rw [hpts] at hr
    rcases hk : disputeKeptTimes psr delta t0 with _ | ⟨c, cs⟩
    · rw [hk] at hr
      cases hr
    · rw [hk] at hr
      simp only [List.map_cons] at hr
      injection hr with hr
      subst hr
      simp only [ValueCheckResult.datapoints] at hbound ⊢
      have hfoldmin :
          (((psr c).1, c) :: cs.map (fun t => ((psr t).1, t))).foldl
              (fun m p => if p.1 < m then p.1 else m) maxFloat64
            = ((((psr c).1, c) :: cs.map (fun t => ((psr t).1, t))).map Prod.fst).foldl
              (fun m x => if x < m then x else m) maxFloat64 := by
        rw [List.foldl_map]
      have hfoldmax :
          (((psr c).1, c) :: cs.map (fun t => ((psr t).1, t))).foldl
              (fun m p => if m < p.1 then p.1 else m) 0
            = ((((psr c).1, c) :: cs.map (fun t => ((psr t).1, t))).map Prod.fst).foldl
              (fun m x => if m < x then x else m) 0 := by
        rw [List.foldl_map]
      have hne : ((((psr c).1, c) :: cs.map (fun t => ((psr t).1, t))).map Prod.fst) ≠ [] := by
        simp
      obtain ⟨hminmem, hmin⟩ :=
        foldlMin_is_min ((((psr c).1, c) :: cs.map (fun t => ((psr t).1, t))).map Prod.fst)
          maxFloat64 hne (fun x hx => (hbound x hx).2)
      obtain ⟨hmaxmem, hmax⟩ :=
        foldlMax_is_max ((((psr c).1, c) :: cs.map (fun t => ((psr t).1, t))).map Prod.fst)
          0 hne (fun x hx => (hbound x hx).1)
      refine ⟨_, _, hminmem, hmaxmem, fun x hx => ⟨hmin x hx, hmax x hx⟩, ?_, ?_, ?_⟩
      · rw [hfoldmin]
      · rw [hfoldmax]
      · simp only [ValueCheckResult.withinRange, decide_eq_true_eq]
        rw [hfoldmin, hfoldmax]

/-- Witness for C8: a fully-confident linear PSR around `t0 = 0` with
`Δ = 10` and `T = 1/20` keeps all five points `[96, 98, 100, 102, 104]`,
and 105 lies strictly inside the band `(91.2, 109.2)`. -/
theorem check_value_at_time_spec_witness :
    ∃ m M, m ∈ vcrLinear.datapoints ∧ M ∈ vcrLinear.datapoints ∧
      (∀ x ∈ vcrLinear.datapoints, m ≤ x ∧ x ≤ M) ∧
      vcrLinear.low = m * (1 - 1 / 20) ∧ vcrLinear.high = M * (1 + 1 / 20) ∧
      (vcrLinear.withinRange = true ↔
        (m * (1 - 1 / 20) < 105 ∧ 105 < M * (1 + 1 / 20))) :=
  (check_value_at_time_spec psrLinear 10 (1 / 20) 105 0).2.2.2 vcrLinear
    (by with_unfolding_all rfl)
    (by intro x hx; fin_cases hx <;> constructor <;> norm_num [maxFloat64, vcrLinear])

/-! ## Claim C9 -/

/-- Adjacency on a volume trace: a successful fetch records 0 exactly when
its source timestamp equals the previous successful fetch's timestamp. -/
theorem volumeRun_getD :
    ∀ (fetches : List (ℚ × Int)) (lastTS : Int) (j : Nat) (dq : ℚ) (df : ℚ × Int),
      j + 1 < fetches.length →
      (volumeRun lastTS fetches).getD (j + 1) dq =
        (if (fetches.getD (j + 1) df).2 = (fetches.getD j df).2 then 0
         else (fetches.getD (j + 1) df).1) := by
  intro fetches
  induction fetches with
  | nil =>
    intro lastTS j dq df hj
    simp at hj
  | cons p rest ih =>
    intro lastTS j dq df hj
    obtain ⟨v, ts⟩ := p
    cases j with
    | zero =>
      cases rest with
      | nil => simp at hj
      | cons q r2 =>
        obtain ⟨v2, ts2⟩ := q
        simp only [volumeRun, List.getD_cons_succ, List.getD_cons_zero]
        simp [eq_comm]
    | succ j' =>
      have h := ih ts j' dq df (by simpa using hj)
      simp only [volumeRun, List.getD_cons_succ]
      exact h

/-- C9: a price source whose symbol contains "volume" (case-insensitive)
records 0 for a fetch returning the same source timestamp as the
immediately preceding fetch, and records the fetched value unchanged when
the timestamp differs. -/
theorem volume_zero_on_repeat (symbol : String) (lastTS : Int)
    (fetches : List (ℚ × Int)) (j : Nat) (dq : ℚ) (df : ℚ × Int)
    (hvol : isVolumeSymbol symbol = true) (hj : j + 1 < fetches.length) :
    (dataSourceRun symbol lastTS fetches).getD (j + 1) dq =
      (if (fetches.getD (j + 1) df).2 = (fetches.getD j df).2 then 0
       else (fetches.getD (j + 1) df).1) := by
  unfold dataSourceRun
  rw [if_pos hvol]
  exact volumeRun_getD fetches lastTS j dq df hj

/-- Witness for C9: the "ethVolume" source fetching `(5,100), (7,100),
(9,200)` records `[5, 0, 9]` - the repeated timestamp 100 zeroes the
second value. -/
theorem volume_zero_on_repeat_witness :
    (dataSourceRun "ethVolume" 0 [(5, 100), (7, 100), (9, 200)]).getD 1 0 = 0 := by
  have h := volume_zero_on_repeat "ethVolume" 0 [(5, 100), (7, 100), (9, 200)]
    0 0 (37, 0) (by decide) (by decide)
  rw [h]
  decide

/-! ## Claim C10 -/

/-- C10: `GasTracker.Exec` is not total on its failure paths.  When every
gas-price source fails (mainnet with a failed ETHGasStation fetch, mainnet
with unparsable ETHGasStation JSON, or another network - in each case with
`SuggestGasPrice` also failing), `Exec` does not return an error: it
reaches `hexutil.EncodeBig` with a nil `*big.Int` and panics on a nil
pointer dereference. -/
theorem gas_tracker_nil_gas_panic :
    GasTrackerExec (.ok 1) (.error "fetching data") (.error "rpc error") = .nilPanic ∧
    GasTrackerExec (.ok 1) (.ok none) (.error "rpc error") = .nilPanic ∧
    GasTrackerExec (.ok 4) (.ok (some 100)) (.error "rpc error") = .nilPanic ∧
    gasExecIsError
      (GasTrackerExec (.ok 1) (.error "fetching data") (.error "rpc error")) = false ∧
    gasExecIsError
      (GasTrackerExec (.ok 4) (.ok (some 100)) (.error "rpc error")) = false := by
  exact ⟨rfl, rfl, rfl, rfl, rfl⟩

/-! ## Claim C1 -/

set_option maxRecDepth 8000 in
/-- C1 counterexample: the first nonce found in `[10, 20)` for the all-zero
challenge and zero miner address at difficulty 10 under the byte-sum hash
is 13, but the spec's buffer construction (hex-decoding the decimal-ASCII
nonce together with the rest of the string) fails the puzzle predicate on
that emitted nonce. -/
theorem pow_spec_predicate_counterexample :
    checkRange sumHash 10 zeroChallenge zeroMiner 10 10 = some 13 ∧
    specSolutionOK sumHash 10 zeroChallenge zeroMiner (decimalDigits 13) = false := by
  constructor
  · decide
  · decide

/-- C1 (amended): every nonce the modelled mining loop emits satisfies the
puzzle predicate as the code's test `CheckSolution` checks it - the hash of
`decodeHex(hex(challenge) || minerHex)` with the nonce's decimal-ASCII
bytes appended raw (not hex-decoded) is divisible by the difficulty - for
every hash function and every difficulty in {10, 100, 1000, MaxInt64}. -/
theorem pow_result_satisfies_code_predicate (H : List Nat → Nat) (d : Nat)
    (challenge : List Nat) (minerHex : List Char) (start n k : Nat)
    (_hd : d = 10 ∨ d = 100 ∨ d = 1000 ∨ d = 9223372036854775807)
    (h : checkRange H d challenge minerHex start n = some k) :
    powSolutionOK H d challenge minerHex (decimalDigits k) = true := by
  unfold checkRange at h
  rcases Option.map_eq_some'.mp h with ⟨k0, hfind, rfl⟩
  have hp := List.find?_some hfind
  simpa using hp

/-- Witness for C1 (amended): the loop finds nonce 2 in `[0, 5)` at
difficulty 10 under the byte-sum hash, and the code predicate holds on
it. -/
theorem pow_result_satisfies_code_predicate_witness :
    checkRange sumHash 10 zeroChallenge zeroMiner 0 5 = some 2 ∧
    powSolutionOK sumHash 10 zeroChallenge zeroMiner (decimalDigits 2) = true :=
  ⟨by decide,
   pow_result_satisfies_code_predicate sumHash 10 zeroChallenge zeroMiner 0 5 2
     (Or.inl rfl) (by decide)⟩

end TellorMiner
